import Mathlib

/-!
Verification of the media-gallery server (src/server.js) against its
specification.  The relevant parts of the JavaScript source are embedded
shallowly: strings are Lean strings, directory states are explicit values,
and every handler becomes a pure function on those states.
-/

namespace Server

/-! ## Filename generation (server.js lines 65-72) -/

/-- Whitespace class of the JavaScript regular expression backslash-s,
restricted to the ASCII whitespace characters (the only ones relevant to the
claims under study). -/
def isJsSpace (c : Char) : Bool :=
  c == ' ' || c == '\t' || c == '\n' || c == '\r' || c == '\x0b' || c == '\x0c'

/-- Replacement of every maximal whitespace run by a single underscore,
the effect of the source expression replacing the pattern backslash-s-plus
globally with an underscore (server.js line 68). -/
def collapseSpaces : List Char → List Char
  | [] => []
  | [c] => if isJsSpace c then ['_'] else [c]
  | c :: d :: rest =>
    if isJsSpace c && isJsSpace d then collapseSpaces (d :: rest)
    else (if isJsSpace c then '_' else c) :: collapseSpaces (d :: rest)

/-- Sanitization of the original client filename (server.js line 68). -/
def sanitize (s : String) : String :=
  String.mk (collapseSpaces s.data)

/-- Split of a character list on a single separator character, matching the
JavaScript split method with a one-character separator: the result is never
empty, and an empty input yields one empty segment. -/
def splitOnC (sep : Char) : List Char → List (List Char)
  | [] => [[]]
  | c :: cs =>
    match splitOnC sep cs with
    | [] => [[]]
    | seg :: segs => if c == sep then [] :: seg :: segs else (c :: seg) :: segs

/-- Join of a list of segments with a single separator character, matching
the JavaScript join method. -/
def joinC (sep : Char) : List (List Char) → List Char
  | [] => []
  | [x] => x
  | x :: y :: rest => x ++ sep :: joinC sep (y :: rest)

/-- Title core used by the gallery lister (server.js line 151): split the
stored filename on the dash, drop the first two segments, rejoin with
dashes, and keep what stands before the first dot. -/
def titleCore (filename : String) : String :=
  String.mk ((splitOnC '.' (joinC '-' ((splitOnC '-' filename.data).drop 2))).headD [])

/-- Storage filename generation (server.js lines 67-69): millisecond
timestamp, a dash, a random nonnegative integer, a dash, and the sanitized
original name. -/
def storageName (timestamp rand : Nat) (originalname : String) : String :=
  toString timestamp ++ "-" ++ toString rand ++ "-" ++ sanitize originalname

/-- Model of the Node function path.extname restricted to names without a
path separator: the suffix starting at the last dot, empty when there is no
dot or when the only dot leads the name. -/
def extnameC (s : List Char) : List Char :=
  match s.reverse.dropWhile (fun c => c != '.') with
  | [] => []
  | _ :: stemRev =>
    if stemRev.isEmpty then []
    else '.' :: (s.reverse.takeWhile (fun c => c != '.')).reverse

/-- Definition following the words of the specification, for comparison with
the code: the name with its file extension stripped, the extension being
what path.extname returns. -/
def specStripExt (s : String) : String :=
  String.mk (s.data.take (s.data.length - (extnameC s.data).length))

/-! ## Gallery listing (server.js lines 117-174) -/

/-- Filesystem metadata of one stored file, as used by the lister. -/
structure Stats where
  size : Nat
  birthtimeMs : Nat
deriving DecidableEq, Repr

/-- One directory entry: its name together with the outcome of statSync,
where none models a thrown metadata-read error (server.js line 135). -/
structure FsEntry where
  name : String
  stat : Option Stats
deriving DecidableEq, Repr

/-- Derived record returned by the lister (server.js lines 148-155).  The
date field, a locale rendering of the same birthtime as created, is not
modelled. -/
structure MemoryItem where
  filename : String
  type : String
  title : String
  size : Nat
  created : Nat
deriving DecidableEq, Repr

/-- Image extension list of the lister (server.js line 138). -/
def imageExtensions : List String :=
  ["jpg", "jpeg", "png", "gif", "webp", "bmp", "svg"]

/-- Video extension list of the lister (server.js line 139). -/
def videoExtensions : List String :=
  ["mp4", "avi", "mov", "wmv", "flv", "webm", "mkv"]

/-- Lowercased extension without its dot (server.js line 136). -/
def extOf (filename : String) : String :=
  String.mk (((extnameC filename.data).map Char.toLower).drop 1)

/-- Type classification of one entry (server.js lines 141-146). -/
def typeOf (filename : String) : String :=
  if imageExtensions.contains (extOf filename) then "image"
  else if videoExtensions.contains (extOf filename) then "video"
  else "unknown"

/-- Per-entry derivation (server.js lines 131-159): a readable entry maps to
its derived record, an entry whose metadata read throws maps to none, the
value the catch branch returns. -/
def toItem (e : FsEntry) : Option MemoryItem :=
  match e.stat with
  | none => none
  | some stats =>
    some { filename := e.name
           type := typeOf e.name
           title := "Kỷ niệm " ++ titleCore e.name
           size := stats.size
           created := stats.birthtimeMs }

/-- Ordering used by the sort comparator at server.js line 163: an item
comes before another exactly when its created timestamp is at least as
large. -/
def createdDesc (a b : MemoryItem) : Prop :=
  b.created ≤ a.created

instance : DecidableRel createdDesc :=
  fun a b => Nat.decLe b.created a.created

instance : IsTotal MemoryItem createdDesc :=
  ⟨fun a b => Nat.le_total b.created a.created⟩

instance : IsTrans MemoryItem createdDesc :=
  ⟨fun _ _ _ hab hbc => Nat.le_trans hbc hab⟩

/-- Whole listing (server.js lines 117-166): an absent directory yields the
empty list; otherwise every entry is mapped, the failed ones are filtered
out, and the result is sorted by the descending-created comparator.  The
JavaScript sort guarantees an output that is a permutation of its input and
sorted by the comparator; insertion sort realizes that contract. -/
def listMemories : Option (List FsEntry) → List MemoryItem
  | none => []
  | some files => List.insertionSort createdDesc ((files.map toItem).reduceOption)

/-! ## Upload validation (server.js lines 76-95 and 261-283) -/

/-- Error value carried to the Express error middleware: whether it is a
MulterError, its code when it has one, and its message. -/
structure ErrObj where
  isMulterError : Bool
  code : Option String
  message : String
deriving DecidableEq, Repr

/-- Accepted image MIME types (server.js line 77). -/
def allowedImageTypes : List String :=
  ["image/jpeg", "image/jpg", "image/png", "image/gif", "image/webp"]

/-- Accepted video MIME types (server.js line 78). -/
def allowedVideoTypes : List String :=
  ["video/mp4", "video/avi", "video/mov", "video/wmv", "video/flv", "video/webm"]

/-- File filter decision (server.js lines 76-87). -/
def fileFilterAccepts (mimetype : String) : Bool :=
  allowedImageTypes.contains mimetype || allowedVideoTypes.contains mimetype

/-- Error object the file filter passes to its callback on rejection
(server.js line 85): a plain Error, not a MulterError. -/
def fileFilterError : ErrObj :=
  { isMulterError := false, code := none, message := "Chỉ chấp nhận file ảnh và video!" }

/-- Configured upload size limit in bytes (server.js line 92). -/
def fileSizeLimit : Nat := 20 * 1024 * 1024

/-- MulterError raised when the size limit is hit. -/
def limitFileSizeError : ErrObj :=
  { isMulterError := true, code := some "LIMIT_FILE_SIZE", message := "File too large" }

/-- Size enforcement of the configured limits.fileSize (server.js lines
89-95): multer fails a file strictly larger than the limit with the
LIMIT_FILE_SIZE MulterError and accepts a file of at most the limit. -/
def multerSizeCheck (totalBytes : Nat) : Option ErrObj :=
  if fileSizeLimit < totalBytes then some limitFileSizeError else none

/-- Error middleware (server.js lines 261-283): status and success flag of
the JSON body produced for an error reaching it. -/
def multerErrorResponse (e : ErrObj) : Nat × Bool :=
  if e.isMulterError then
    if e.code == some "LIMIT_FILE_SIZE" then (400, false)
    else if e.code == some "LIMIT_UNEXPECTED_FILE" then (400, false)
    else (500, false)
  else (500, false)

/-- Effect of the type check on the storage directory, per the multer
single-file wiring (server.js lines 89-95 and 177): multer consults the
file filter before it invokes the disk storage engine, so a rejected
declared type hands the filter error to the error middleware and writes
nothing, while an accepted type lets the file be stored under its
generated name. -/
def uploadPipeline (mimetype storedName : String) (storage : List String) :
    Option ErrObj × List String :=
  if fileFilterAccepts mimetype then (none, storage ++ [storedName])
  else (some fileFilterError, storage)

/-- Definition following the words of the specification, for comparison
with the code list: images jpeg, png, gif, webp and videos mp4, avi, mov,
wmv, flv, webm. -/
def specAllowList : List String :=
  ["image/jpeg", "image/png", "image/gif", "image/webp",
   "video/mp4", "video/avi", "video/mov", "video/wmv", "video/flv", "video/webm"]

/-! ## Deletion (server.js lines 205-236) -/

/-- Normalization step of the Node function path.join on an absolute base:
each part is appended as a segment, empty and single-dot parts vanish, and
a double-dot part pops the last segment. -/
def resolveSegs (base : List String) (parts : List String) : List String :=
  parts.foldl
    (fun acc p =>
      if p = "" ∨ p = "." then acc
      else if p = ".." then acc.dropLast
      else acc ++ [p])
    base

/-- Path the delete handler resolves (server.js line 210): the application
directory, then the storage directory anhkiniem, then the request filename
split on the path separator. -/
def deletePath (dirname : List String) (filename : String) : List String :=
  resolveSegs dirname ("anhkiniem" :: (splitOnC '/' filename.data).map String.mk)

/-- Delete handler (server.js lines 205-236) over an explicit filesystem,
given as the list of absolute paths of the existing files: when the
resolved path exists it is unlinked and the handler answers 200 with a
success body, otherwise the handler answers 404 with a failure body and
touches nothing. -/
def deleteHandler (dirname : List String) (fs : List (List String)) (filename : String) :
    (Nat × Bool) × List (List String) :=
  let filePath := deletePath dirname filename
  if filePath ∈ fs then ((200, true), fs.erase filePath)
  else ((404, false), fs)

/-! ## Helper lemmas -/

theorem mk_data (s : String) : String.mk s.data = s := rfl

theorem splitOnC_ne_nil (sep : Char) (l : List Char) : splitOnC sep l ≠ [] := by
  cases l with
  | nil => simp [splitOnC]
  | cons c cs =>
    rcases h : splitOnC sep cs with _ | ⟨seg, segs⟩
    · simp [splitOnC, h]
    · simp only [splitOnC, h]
      split <;> simp

theorem splitOnC_not_mem {sep : Char} : ∀ {l : List Char}, sep ∉ l → splitOnC sep l = [l] := by
  intro l
  induction l with
  | nil => intro _; rfl
  | cons c cs ih =>
    intro h
    simp only [List.mem_cons, not_or] at h
    obtain ⟨h1, h2⟩ := h
    have hb : (c == sep) = false := by
      simp only [beq_eq_false_iff_ne, ne_eq]
      exact fun e => h1 e.symm
    simp [splitOnC, ih h2, hb]

theorem splitOnC_append (sep : Char) :
    ∀ (a b : List Char), sep ∉ a → splitOnC sep (a ++ sep :: b) = a :: splitOnC sep b := by
  intro a
  induction a with
  | nil =>
    intro b _
    rcases h : splitOnC sep b with _ | ⟨seg, segs⟩
    · exact absurd h (splitOnC_ne_nil sep b)
    · simp [splitOnC, h]
  | cons c cs ih =>
    intro b h
    simp only [List.mem_cons, not_or] at h
    obtain ⟨h1, h2⟩ := h
    have hb : (c == sep) = false := by
      simp only [beq_eq_false_iff_ne, ne_eq]
      exact fun e => h1 e.symm
    simp [List.cons_append, splitOnC, ih b h2, hb]

theorem joinC_cons_head (sep c : Char) (seg : List Char) (segs : List (List Char)) :
    joinC sep ((c :: seg) :: segs) = c :: joinC sep (seg :: segs) := by
  cases segs <;> simp [joinC]

theorem joinC_splitOnC (sep : Char) : ∀ l : List Char, joinC sep (splitOnC sep l) = l := by
  intro l
  induction l with
  | nil => rfl
  | cons c cs ih =>
    rcases h : splitOnC sep cs with _ | ⟨seg, segs⟩
    · exact absurd h (splitOnC_ne_nil sep cs)
    · have h4 := ih
      rw [h] at h4
      by_cases hc : c = sep
      · subst hc
        simp only [splitOnC, h, beq_self_eq_true, if_true]
        simpa [joinC] using h4
      · have hb : (c == sep) = false := by
          simp only [beq_eq_false_iff_ne, ne_eq]
          exact hc
        simp only [splitOnC, h, hb, Bool.false_eq_true, if_false]
        rw [joinC_cons_head, h4]

theorem toDigitsCore_digits :
    ∀ (fuel n : Nat) (ds : List Char), (∀ c ∈ ds, c.isDigit = true) →
      ∀ c ∈ Nat.toDigitsCore 10 fuel n ds, c.isDigit = true := by
  intro fuel
  induction fuel with
  | zero =>
    intro n ds h
    rw [Nat.toDigitsCore]
    exact h
  | succ fuel ih =>
    intro n ds h
    have hd : (Nat.digitChar (n % 10)).isDigit = true := by
      have hlt : n % 10 < 10 := Nat.mod_lt _ (by norm_num)
      revert hlt
      generalize n % 10 = m
      intro hlt
      interval_cases m <;> decide
    have hds : ∀ c ∈ Nat.digitChar (n % 10) :: ds, c.isDigit = true := by
      intro c hc
      rcases List.mem_cons.mp hc with rfl | hm
      · exact hd
      · exact h c hm
    rw [Nat.toDigitsCore]
    by_cases hz : n / 10 = 0
    · rw [if_pos hz]
      exact hds
    · rw [if_neg hz]
      exact ih (n / 10) _ hds

theorem toString_nat_digits (n : Nat) : ∀ c ∈ (toString n).data, c.isDigit = true := by
  intro c hc
  have he : (toString n).data = Nat.toDigitsCore 10 (n + 1) n [] := rfl
  rw [he] at hc
  exact toDigitsCore_digits (n + 1) n [] (fun x hx => absurd hx (List.not_mem_nil x)) c hc

theorem dash_not_mem_toString (n : Nat) : ('-' : Char) ∉ (toString n).data := by
  intro h
  exact absurd (toString_nat_digits n '-' h) (by decide)

theorem storageName_data (ts rnd : Nat) (o : String) :
    (storageName ts rnd o).data =
      (toString ts).data ++ '-' :: ((toString rnd).data ++ '-' :: (sanitize o).data) := by
  have hdash : ("-" : String).data = ['-'] := rfl
  simp [storageName, String.data_append, hdash]

theorem title_roundtrip_core (ts rnd : Nat) (o : String) :
    titleCore (storageName ts rnd o) =
      String.mk ((splitOnC '.' (sanitize o).data).headD []) := by
  unfold titleCore
  rw [storageName_data, splitOnC_append '-' _ _ (dash_not_mem_toString ts),
    splitOnC_append '-' _ _ (dash_not_mem_toString rnd)]
  simp only [List.drop_succ_cons, List.drop_zero]
  rw [joinC_splitOnC]

theorem dropWhile_append_all {α : Type} (p : α → Bool) :
    ∀ (x y : List α), (∀ e ∈ x, p e = true) → (x ++ y).dropWhile p = y.dropWhile p := by
  intro x
  induction x with
  | nil => intro y _; rfl
  | cons a as ih =>
    intro y h
    have ha : p a = true := h a (List.mem_cons_self a as)
    simp [List.dropWhile_cons, ha, ih y (fun e he => h e (List.mem_cons_of_mem a he))]

theorem takeWhile_append_stop {α : Type} (p : α → Bool) (c : α) (hc : p c = false) :
    ∀ (x y : List α), (∀ e ∈ x, p e = true) → (x ++ c :: y).takeWhile p = x := by
  intro x
  induction x with
  | nil =>
    intro y _
    simp [List.takeWhile_cons, hc]
  | cons a as ih =>
    intro y h
    have ha : p a = true := h a (List.mem_cons_self a as)
    simp [List.takeWhile_cons, ha, ih y (fun e he => h e (List.mem_cons_of_mem a he))]

theorem extnameC_no_dot (l : List Char) (h : ('.' : Char) ∉ l) : extnameC l = [] := by
  unfold extnameC
  have hd : l.reverse.dropWhile (fun c => c != '.') = [] := by
    rw [List.dropWhile_eq_nil_iff]
    intro x hx
    simp only [bne_iff_ne, ne_eq]
    exact fun e => h (e ▸ List.mem_reverse.mp hx)
  rw [hd]

theorem extnameC_last (a b : List Char) (ha : a ≠ []) (hb : ('.' : Char) ∉ b) :
    extnameC (a ++ '.' :: b) = '.' :: b := by
  unfold extnameC
  have hball : ∀ e ∈ b.reverse, (fun c => c != '.') e = true := by
    intro e he
    simp only [bne_iff_ne, ne_eq]
    exact fun hed => hb (hed ▸ List.mem_reverse.mp he)
  have hrev : (a ++ '.' :: b).reverse = b.reverse ++ '.' :: a.reverse := by
    simp
  have hdrop : ((a ++ '.' :: b).reverse).dropWhile (fun c => c != '.') = '.' :: a.reverse := by
    rw [hrev, dropWhile_append_all _ _ _ hball, List.dropWhile_cons]
    simp
  have htake : ((a ++ '.' :: b).reverse).takeWhile (fun c => c != '.') = b.reverse := by
    rw [hrev, takeWhile_append_stop _ '.' (by decide) _ _ hball]
  rw [hdrop, htake]
  have hne : a.reverse.isEmpty = false := by
    rcases h : a.reverse with _ | ⟨x, xs⟩
    · exact absurd (List.reverse_eq_nil_iff.mp h) ha
    · rfl
  simp [hne]

theorem mem_split_first {c : Char} :
    ∀ {l : List Char}, c ∈ l → ∃ a b, l = a ++ c :: b ∧ c ∉ a := by
  intro l
  induction l with
  | nil => intro h; cases h
  | cons x xs ih =>
    intro h
    by_cases hx : x = c
    · subst hx
      exact ⟨[], xs, rfl, by simp⟩
    · rcases List.mem_cons.mp h with h1 | h2
      · exact absurd h1.symm hx
      · obtain ⟨a, b, hab, hna⟩ := ih h2
        refine ⟨x :: a, b, by rw [hab]; rfl, ?_⟩
        simp only [List.mem_cons, not_or]
        exact ⟨fun e => hx e.symm, hna⟩

theorem deletePath_plain (dirname : List String) (s : String)
    (h1 : ('/' : Char) ∉ s.data) (h2 : s ≠ "") (h3 : s ≠ ".") (h4 : s ≠ "..") :
    deletePath dirname s = dirname ++ ["anhkiniem", s] := by
  unfold deletePath
  rw [splitOnC_not_mem h1]
  simp [resolveSegs, mk_data, h2, h3, h4]

/-! ## Theorems -/

/-- C2: for the stored filename 1700000000000-123456789-My_Photo.png the
gallery lister derives the title Kỷ niệm My_Photo and the type image,
whatever the filesystem metadata of the entry. -/
theorem listing_example_title_and_type :
    ∀ st : Stats, ∃ m : MemoryItem,
      toItem ⟨"1700000000000-123456789-My_Photo.png", some st⟩ = some m ∧
      m.title = "Kỷ niệm My_Photo" ∧ m.type = "image" := by
  intro st
  refine ⟨_, rfl, ?_, ?_⟩
  · show ("Kỷ niệm " ++ titleCore "1700000000000-123456789-My_Photo.png") = "Kỷ niệm My_Photo"
    decide
  · show typeOf "1700000000000-123456789-My_Photo.png" = "image"
    decide

/-- C8: listing an absent storage directory and listing an empty storage
directory both return the empty sequence and never an error. -/
theorem listing_empty_or_absent :
    listMemories none = [] ∧ listMemories (some []) = [] :=
  ⟨rfl, rfl⟩

/-- C3: the delete handler performs no traversal check; a filename with a
double-dot segment resolves outside the storage directory, and when a file
exists there the handler removes it and answers success instead of
rejecting the request. -/
theorem delete_traversal_escape :
    deletePath ["home", "app"] "../secret.txt" = ["home", "app", "secret.txt"] ∧
    deleteHandler ["home", "app"] [["home", "app", "secret.txt"]] "../secret.txt" =
      ((200, true), []) := by
  exact ⟨by decide, by decide⟩

/-- C10: whenever the delete handler answers 404 with a failure body, the
filesystem is left exactly unchanged, because existence is checked before
any removal is attempted. -/
theorem delete_notfound_preserves_fs :
    ∀ (dirname : List String) (fs : List (List String)) (filename : String),
      (deleteHandler dirname fs filename).1 = (404, false) →
      (deleteHandler dirname fs filename).2 = fs := by
  intro dn fs s h
  by_cases hm : deletePath dn s ∈ fs
  · simp [deleteHandler, hm] at h
  · simp [deleteHandler, hm]

/-- C10 witness: a concrete not-found deletion leaving the filesystem
unchanged. -/
theorem delete_notfound_preserves_fs_witness :
    (deleteHandler [] [] "a.png").1 = (404, false) ∧ (deleteHandler [] [] "a.png").2 = [] :=
  ⟨by decide, delete_notfound_preserves_fs [] [] "a.png" (by decide)⟩

/-- C7: an upload whose total size strictly exceeds 20 MiB is failed by the
size check, and the resulting MulterError is reported as HTTP 400 with a
failure body; an upload of at most 20 MiB is not rejected for size. -/
theorem upload_size_limit :
    (∀ n : Nat, multerSizeCheck n = none ↔ n ≤ 20 * 1024 * 1024) ∧
    (∀ (n : Nat) (e : ErrObj), multerSizeCheck n = some e →
      multerErrorResponse e = (400, false)) := by
  constructor
  · intro n
    by_cases h : fileSizeLimit < n
    · simp only [multerSizeCheck, if_pos h]
      simp only [fileSizeLimit] at h
      constructor
      · intro he; exact absurd he (by simp)
      · intro hle; omega
    · simp only [multerSizeCheck, if_neg h]
      simp only [fileSizeLimit] at h
      constructor
      · intro _; omega
      · intro _; trivial
  · intro n e h
    unfold multerSizeCheck at h
    split at h
    · cases h
      decide
    · cases h

/-- C7 witness: one byte over the limit is rejected and reported as 400
with a failure body. -/
theorem upload_size_limit_witness :
    multerSizeCheck (20 * 1024 * 1024 + 1) = some limitFileSizeError ∧
    multerErrorResponse limitFileSizeError = (400, false) :=
  ⟨by decide, upload_size_limit.2 (20 * 1024 * 1024 + 1) limitFileSizeError (by decide)⟩

/-- C4 counterexample: the declared type image/jpg is accepted by the file
filter although it is not on the allow-list the claim states, and a
rejected type such as application/pdf surfaces as HTTP 500, not 400,
because the file filter raises a plain Error the Multer branch of the
error middleware does not recognize. -/
theorem fileFilter_spec_divergence :
    fileFilterAccepts "image/jpg" = true ∧ "image/jpg" ∉ specAllowList ∧
    fileFilterAccepts "application/pdf" = false ∧
    multerErrorResponse fileFilterError = (500, false) := by
  exact ⟨by decide, by decide, by decide, by decide⟩

/-- C4 amended: the file filter accepts a declared MIME type exactly when
it is on the spec allow-list extended with image/jpg; an upload whose
declared type is outside that list is rejected with the filter error and
no file is written, the storage directory staying exactly unchanged; and
the rejection surfaces as HTTP 500 with a failure body. -/
theorem fileFilter_allowlist :
    (∀ m : String, fileFilterAccepts m = true ↔ (m ∈ specAllowList ∨ m = "image/jpg")) ∧
    (∀ (m storedName : String) (storage : List String),
      m ∉ specAllowList → m ≠ "image/jpg" →
      uploadPipeline m storedName storage = (some fileFilterError, storage)) ∧
    multerErrorResponse fileFilterError = (500, false) := by
  have hchar : ∀ m : String, fileFilterAccepts m = true ↔ (m ∈ specAllowList ∨ m = "image/jpg") := by
    intro m
    have hiff : ∀ l : List String, l.contains m = true ↔ m ∈ l := fun _ => List.elem_iff
    simp only [fileFilterAccepts, Bool.or_eq_true, hiff, allowedImageTypes,
      allowedVideoTypes, specAllowList, List.mem_cons, List.not_mem_nil, or_false]
    tauto
  refine ⟨hchar, ?_, by decide⟩
  intro m storedName storage hm1 hm2
  have hacc : fileFilterAccepts m ≠ true := fun h => by
    rcases (hchar m).mp h with h1 | h2
    · exact hm1 h1
    · exact hm2 h2
  unfold uploadPipeline
  rw [if_neg hacc]

/-- C4 amended witness: a concrete upload with declared type
application/pdf is rejected with the filter error and the storage
directory is left unchanged. -/
theorem fileFilter_allowlist_witness :
    uploadPipeline "application/pdf" "x.pdf" ["old.png"] = (some fileFilterError, ["old.png"]) :=
  fileFilter_allowlist.2.1 "application/pdf" "x.pdf" ["old.png"] (by decide) (by decide)

/-- C5: for a filename that is a plain storage key, the delete handler
answers 404 with a failure body exactly when no file of that name exists in
the storage directory, and otherwise removes that one file and answers
success; it never does anything else. -/
theorem delete_plain_key :
    ∀ (dirname : List String) (fs : List (List String)) (s : String),
      ('/' : Char) ∉ s.data → s ≠ "" → s ≠ "." → s ≠ ".." →
      ((deleteHandler dirname fs s).1 = (404, false) ↔ dirname ++ ["anhkiniem", s] ∉ fs) ∧
      (dirname ++ ["anhkiniem", s] ∈ fs →
        deleteHandler dirname fs s = ((200, true), fs.erase (dirname ++ ["anhkiniem", s]))) := by
  intro dn fs s h1 h2 h3 h4
  have hp : deletePath dn s = dn ++ ["anhkiniem", s] := deletePath_plain dn s h1 h2 h3 h4
  constructor
  · by_cases hm : dn ++ ["anhkiniem", s] ∈ fs
    · simp [deleteHandler, hp, hm]
    · simp [deleteHandler, hp, hm]
  · intro hm
    simp [deleteHandler, hp, hm]

/-- C5 witness: a concrete existing key is removed with success, and the
same key is then absent. -/
theorem delete_plain_key_witness :
    deleteHandler [] [["anhkiniem", "x.png"]] "x.png" = ((200, true), []) := by
  have h := (delete_plain_key [] [["anhkiniem", "x.png"]] "x.png"
    (by decide) (by decide) (by decide) (by decide)).2 (by decide)
  simpa using h

/-- C6: the listing is sorted in descending order of the created timestamp
for every storage state, and three readable entries with strictly
increasing created timestamps come back most-recent first. -/
theorem listing_sorted_desc :
    (∀ d : Option (List FsEntry), List.Sorted createdDesc (listMemories d)) ∧
    (∀ (e1 e2 e3 : FsEntry) (i1 i2 i3 : MemoryItem),
      toItem e1 = some i1 → toItem e2 = some i2 → toItem e3 = some i3 →
      i1.created < i2.created → i2.created < i3.created →
      listMemories (some [e1, e2, e3]) = [i3, i2, i1]) := by
  constructor
  · intro d
    cases d with
    | none => exact List.sorted_nil
    | some files => exact List.sorted_insertionSort createdDesc _
  · intro e1 e2 e3 i1 i2 i3 h1 h2 h3 h12 h23
    have n12 : ¬ createdDesc i1 i2 := by simp only [createdDesc]; omega
    have n13 : ¬ createdDesc i1 i3 := by simp only [createdDesc]; omega
    have n23 : ¬ createdDesc i2 i3 := by simp only [createdDesc]; omega
    simp [listMemories, h1, h2, h3, List.reduceOption_cons_of_some,
      List.insertionSort, List.orderedInsert, n12, n13, n23]

/-- C6 witness: three concrete entries created at 10, 20 and 30 are listed
in the order 30, 20, 10. -/
theorem listing_sorted_desc_witness :
    listMemories (some [⟨"a.png", some ⟨1, 10⟩⟩, ⟨"b.png", some ⟨2, 20⟩⟩,
        ⟨"c.png", some ⟨3, 30⟩⟩]) =
      [⟨"c.png", "image", "Kỷ niệm ", 3, 30⟩, ⟨"b.png", "image", "Kỷ niệm ", 2, 20⟩,
       ⟨"a.png", "image", "Kỷ niệm ", 1, 10⟩] :=
  listing_sorted_desc.2 _ _ _ _ _ _ (by decide) (by decide) (by decide) (by decide) (by decide)

/-- C9: an entry whose metadata read fails contributes nothing and its
presence leaves the listing of the other entries exactly unchanged, and an
item is listed exactly when some entry of the directory derives to it; a
single unreadable entry never fails the whole listing. -/
theorem listing_skips_unreadable :
    (∀ (pre post : List FsEntry) (e : FsEntry), e.stat = none →
      listMemories (some (pre ++ e :: post)) = listMemories (some (pre ++ post))) ∧
    (∀ (es : List FsEntry) (i : MemoryItem),
      i ∈ listMemories (some es) ↔ ∃ e ∈ es, toItem e = some i) := by
  constructor
  · intro pre post e he
    have hnone : toItem e = none := by simp [toItem, he]
    simp [listMemories, List.map_append, List.reduceOption_append, hnone,
      List.reduceOption_cons_of_none]
  · intro es i
    simp only [listMemories]
    rw [List.mem_insertionSort, List.reduceOption_mem_iff, List.mem_map]

/-- C9 witness: an unreadable entry next to a readable one leaves the
listing of the readable one unchanged. -/
theorem listing_skips_unreadable_witness :
    listMemories (some [⟨"a.png", some ⟨1, 10⟩⟩, ⟨"bad.png", none⟩]) =
      listMemories (some [⟨"a.png", some ⟨1, 10⟩⟩]) :=
  listing_skips_unreadable.1 [⟨"a.png", some ⟨1, 10⟩⟩] [] ⟨"bad.png", none⟩ rfl

/-- C1 counterexample: for the original name a.b.png the recovery applied
to the generated storage name yields only the part before the first dot,
not the sanitized name without its extension. -/
theorem title_roundtrip_counterexample :
    titleCore (storageName 1700000000000 123456789 "a.b.png") ≠
      specStripExt (sanitize "a.b.png") := by
  decide

/-- C1 amended: whenever the sanitized original name contains at most one
dot and does not begin with a dot, generating a storage name and then
recovering the title yields the sanitized original name without its
extension; in general the recovery keeps only what stands before the first
dot of the sanitized name. -/
theorem title_roundtrip_amended :
    ∀ (ts rnd : Nat) (o : String),
      (sanitize o).data.count '.' ≤ 1 →
      (sanitize o).data.head? ≠ some '.' →
      titleCore (storageName ts rnd o) = specStripExt (sanitize o) := by
  intro ts rnd o hcount hhead
  rw [title_roundtrip_core]
  unfold specStripExt
  congr 1
  by_cases hdot : ('.' : Char) ∈ (sanitize o).data
  · obtain ⟨a, b, hab, hna⟩ := mem_split_first hdot
    have ha : a ≠ [] := by
      intro haeq
      subst haeq
      rw [hab] at hhead
      simp at hhead
    have hb0 : b.count '.' = 0 := by
      rw [hab, List.count_append, List.count_cons_self] at hcount
      omega
    have hcb : ('.' : Char) ∉ b := List.count_eq_zero.mp hb0
    rw [hab, splitOnC_append '.' a b hna, extnameC_last a b ha hcb]
    have hlen : (a ++ '.' :: b).length - ('.' :: b).length = a.length := by
      simp [List.length_append]
    rw [hlen]
    simp [List.take_left]
  · rw [splitOnC_not_mem hdot, extnameC_no_dot _ hdot]
    simp

/-- C1 witness: the original name My Photo.png, which holds one whitespace
run and one dot, survives the round trip. -/
theorem title_roundtrip_amended_witness :
    (sanitize "My Photo.png").data.count '.' ≤ 1 ∧
    (sanitize "My Photo.png").data.head? ≠ some '.' ∧
    titleCore (storageName 1700000000000 123456789 "My Photo.png") =
      specStripExt (sanitize "My Photo.png") :=
  ⟨by decide, by decide,
    title_roundtrip_amended 1700000000000 123456789 "My Photo.png" (by decide) (by decide)⟩

end Server
